import Mathlib

/-!
Verification of the task-printer repository (src/printer.rs, src/api.rs,
src/cli.rs).  Strings manipulated by the renderers are modelled as
`List Char`; Rust's byte-indexed slicing (`&s[a..b]`), which panics on an
out-of-range index or an index that is not a UTF-8 character boundary, is
modelled by `Option`-valued byte-slicing functions (`none` = panic).
-/

namespace TaskPrinter

/-- Number of bytes of the UTF-8 encoding of a character (Rust `char::len_utf8`). -/
def csize (c : Char) : Nat :=
  if c.toNat < 128 then 1 else if c.toNat < 2048 then 2 else if c.toNat < 65536 then 3 else 4

/-- Byte length of a string (Rust `str::len`). -/
def utf8Len (l : List Char) : Nat := (l.map csize).sum

/-- The string consists of ASCII characters only. -/
def AsciiStr (l : List Char) : Prop := ∀ c ∈ l, c.toNat < 128

instance (l : List Char) : Decidable (AsciiStr l) := List.decidableBAll _ l

/-- Take the first `n` bytes of a string: `some` of the characters occupying
exactly those bytes, or `none` when `n` overruns the string or falls inside
the encoding of a character (Rust `&s[..n]`, which panics in those cases). -/
def takeBytes : List Char → Nat → Option (List Char)
  | _, 0 => some []
  | [], _ + 1 => none
  | c :: s, n + 1 =>
    if csize c ≤ n + 1 then (takeBytes s (n + 1 - csize c)).map (fun t => c :: t) else none

/-- Drop the first `n` bytes of a string, `none` on a panic (Rust `&s[n..]`). -/
def dropBytes : List Char → Nat → Option (List Char)
  | s, 0 => some s
  | [], _ + 1 => none
  | c :: s, n + 1 =>
    if csize c ≤ n + 1 then dropBytes s (n + 1 - csize c) else none

/-- Byte slice `&s[a..b]` (with `a ≤ b`), `none` on a panic. -/
def sliceBytes (l : List Char) (a b : Nat) : Option (List Char) :=
  (dropBytes l a).bind (fun t => takeBytes t (b - a))

/-- Rust `format!("{:<w}", s)`: left-justify, pad on the right with spaces to
at least `w` characters. -/
def padRight (s : List Char) (w : Nat) : List Char :=
  s ++ List.replicate (w - s.length) ' '

/-- Rust `format!("{:>w}", s)`: right-justify, pad on the left with spaces to
at least `w` characters. -/
def padLeft (s : List Char) (w : Nat) : List Char :=
  List.replicate (w - s.length) ' ' ++ s

/-- One fuelled step list of Rust `str::replace`: scan left to right, replace
each leftmost non-overlapping occurrence of `pat`, never rescanning the
replacement text.  The fuel is an upper bound on the number of scan steps;
`replaceAll` supplies enough. -/
def replaceGo : Nat → List Char → List Char → List Char → List Char
  | 0, _, _, s => s
  | _ + 1, _, _, [] => []
  | fuel + 1, pat, repl, c :: s =>
    if pat.isPrefixOf (c :: s) then repl ++ replaceGo fuel pat repl ((c :: s).drop pat.length)
    else c :: replaceGo fuel pat repl s

/-- Rust `s.replace(pat, repl)` (for a non-empty `pat`). -/
def replaceAll (pat repl s : List Char) : List Char := replaceGo s.length pat repl s

/-- Split at every newline character; always returns at least one piece. -/
def splitNL : List Char → List (List Char)
  | [] => [[]]
  | c :: s =>
    if c = '\n' then [] :: splitNL s
    else
      match splitNL s with
      | [] => [[c]]
      | l :: ls => (c :: l) :: ls

/-- Strip one trailing carriage return. -/
def rstripCR (l : List Char) : List Char :=
  if l.getLast? = some '\x0d' then l.dropLast else l

/-- Reassemble the pieces of `splitNL` the way Rust `str::lines` does: every
piece that was followed by a newline has one trailing carriage return
stripped, and a final empty piece (the string ended with a newline, or the
whole string was empty) is dropped. -/
def assembleLines : List (List Char) → List (List Char)
  | [] => []
  | [p] => if p = [] then [] else [p]
  | p :: q :: ps => rstripCR p :: assembleLines (q :: ps)

/-- Rust `str::lines`. -/
def linesOf (s : List Char) : List (List Char) := assembleLines (splitNL s)

/-- The chunking loop of `generate_task_string` / `generate_note_string`
(printer.rs lines 173-183 and 224-234): starting at byte offset `start`,
while `start < line.len()` slice `&line[start .. min(start+24, line.len())]`
and advance by 24 bytes.  `none` when a slice panics.  The fuel argument is
an upper bound on the number of iterations; `chunks` supplies enough. -/
def chunkGo : Nat → List Char → Nat → Option (List (List Char))
  | 0, _, _ => none
  | fuel + 1, line, start =>
    if start < utf8Len line then
      match sliceBytes line start (min (start + 24) (utf8Len line)) with
      | none => none
      | some seg =>
        match chunkGo fuel line (start + 24) with
        | none => none
        | some rest => some (seg :: rest)
    else some []

/-- The list of byte segments the chunking loop slices from one line. -/
def chunks (line : List Char) : Option (List (List Char)) :=
  chunkGo (line.length + 1) line 0

/-- Reference chunking: split a list into consecutive pieces of 24 elements. -/
def chunks24 (l : List Char) : List (List Char) :=
  if h : l = [] then [] else l.take 24 :: chunks24 (l.drop 24)
termination_by l.length
decreasing_by
  simp only [List.length_drop]
  have := List.length_pos.mpr h
  omega

/-- `&format!("{:<20}", segment)[..20]` (printer.rs lines 180 and 231). -/
def formatSegment (seg : List Char) : Option (List Char) :=
  takeBytes (padRight seg 20) 20

def frame_header : List Char := "┌──────────────────────┐".toList
def note_title_box : List Char := "│        NOTE          │".toList
def frame_title_box : List Char := "│ {title} {date} │".toList
def frame_separator : List Char := "├──────────────────────┤".toList
def frame_body : List Char := "│ {} │".toList
def frame_footer : List Char := "└──────────────────────┘".toList
def titleTok : List Char := "{title}".toList
def dateTok : List Char := "{date}".toList
def braceTok : List Char := "{}".toList

/-- `frame_body.replace("{}", f)`. -/
def bodyRow (f : List Char) : List Char := replaceAll braceTok f frame_body

/-- The body text one message line contributes: one `frame_body` row plus a
newline per 24-byte segment (`none` when a slice panics). -/
def rowsOfLine (line : List Char) : Option (List Char) :=
  (chunks line).bind fun cs =>
    (cs.mapM formatSegment).bind fun fs =>
      some ((fs.map (fun f => bodyRow f ++ ['\n'])).flatten)

/-- The whole body text of a message: rows of every line of the message. -/
def bodyText (msg : List Char) : Option (List Char) :=
  ((linesOf msg).mapM rowsOfLine).bind fun rs => some rs.flatten

/-- The print task record (printer.rs lines 12-27).  Fields that are only
compared to string literals or passed through are kept as Lean `String`s. -/
structure PrintTask where
  title : Option (List Char)
  message : List Char
  date : Option (List Char)
  encode : Option Bool
  address : Option String
  port : Option Nat
  codepage : Option String
deriving DecidableEq

/-- `generate_note_string` (printer.rs lines 162-188): `none` models a panic
of the byte slicing inside the chunk loop. -/
def generate_note_string (task : PrintTask) : Option (List Char) :=
  (bodyText task.message).bind fun body =>
    some (frame_header ++ '\n' :: (note_title_box ++ '\n' :: (frame_separator ++ '\n' :: (body ++ frame_footer))))

/-- `generate_task_string` (printer.rs lines 202-239).  `today` stands for
`Local::now().format("%d/%m/%Y")`, used when `task.date` is absent.  The
steps that can panic, in source order: `&date_str[0..5]`,
`&format!("{:<14}", title)[..14]`, `&format!("{:>5}", short)[..5]`, and the
chunk loop of the message body. -/
def generate_task_string (today : List Char) (task : PrintTask) : Option (List Char) :=
  (takeBytes (task.date.getD today) 5).bind fun short =>
    (takeBytes (padRight (task.title.getD ("NOTE".toList)) 14) 14).bind fun t14 =>
      (takeBytes (padLeft short 5) 5).bind fun d5 =>
        (bodyText task.message).bind fun body =>
          some (frame_header ++ '\n' ::
            (replaceAll dateTok d5 (replaceAll titleTok t14 frame_title_box) ++ '\n' ::
              (frame_separator ++ '\n' :: (body ++ frame_footer))))

/-- The message `print_task` renders (printer.rs lines 85-91): the task
layout when a title is present, the note layout otherwise. -/
def printTaskMessage (today : List Char) (task : PrintTask) : Option (List Char) :=
  if task.title.isSome then generate_task_string today task else generate_note_string task

/-- The code tables the repository selects among (escpos `PageCode` values
reachable from this code). -/
inductive PageCode where
  | PC850 | ISO8859_15 | WPC1252 | PC437 | ISO8859_7
deriving DecidableEq

/-- Codepage resolution in `print_task` (printer.rs lines 74-81). -/
def print_task_codepage (c : Option String) : PageCode :=
  match c with
  | none => PageCode.PC850
  | some s =>
    if s = "PC850" then PageCode.PC850
    else if s = "ISO8859_15" then PageCode.ISO8859_15
    else if s = "WPC1252" then PageCode.WPC1252
    else if s = "PC437" then PageCode.PC437
    else if s = "ISO8859_7" then PageCode.ISO8859_7
    else PageCode.PC850

/-- Codepage resolution in `print_qr_code` (printer.rs lines 125-132). -/
def print_qr_codepage (c : Option String) : PageCode :=
  match c with
  | none => PageCode.PC850
  | some s =>
    if s = "PC850" then PageCode.PC850
    else if s = "ISO8859_15" then PageCode.ISO8859_15
    else if s = "WPC1252" then PageCode.WPC1252
    else if s = "PC437" then PageCode.PC437
    else if s = "ISO8859_7" then PageCode.ISO8859_7
    else PageCode.PC850

inductive JustifyMode where
  | LEFT | CENTER | RIGHT
deriving DecidableEq

/-- One discrete command issued to the printer library. -/
inductive Directive where
  | openConn (address : String) (port : Nat)
  | init
  | pageCode (p : PageCode)
  | smoothing (b : Bool)
  | justify (j : JustifyMode)
  | reverse (b : Bool)
  | size (w h : Nat)
  | writeln (msg : List Char)
  | qrcode (msg : List Char)
  | feed
  | printCut
deriving DecidableEq

/-- The ordered directive sequence of `print_task` (printer.rs lines 68-106)
for a rendered message `msg`: connection open, then the `?`-chained calls,
ending with the cut. -/
def print_task_directives (t : PrintTask) (msg : List Char) : List Directive :=
  [Directive.openConn (t.address.getD "taskbob") (t.port.getD 9100),
   Directive.init,
   Directive.pageCode (print_task_codepage t.codepage),
   Directive.smoothing true,
   Directive.justify JustifyMode.LEFT,
   Directive.reverse false,
   Directive.size 2 2,
   Directive.writeln msg,
   Directive.feed,
   Directive.printCut]

/-- The ordered directive sequence of `print_qr_code` (printer.rs lines
119-148). -/
def print_qr_directives (t : PrintTask) : List Directive :=
  [Directive.openConn (t.address.getD "taskbob") (t.port.getD 9100),
   Directive.init,
   Directive.pageCode (print_qr_codepage t.codepage),
   Directive.smoothing true,
   Directive.justify JustifyMode.CENTER,
   Directive.reverse false,
   Directive.qrcode t.message,
   Directive.feed,
   Directive.printCut]

/-- Run a directive sequence against a device: `oracle i` is `some e` when
the `i`-th directive call fails with error `e` (modelling the `?` operator).
Returns the directives issued successfully and the overall result. -/
def runDirectives (oracle : Nat → Option Nat) : List Directive → Nat → List Directive × Except Nat Unit
  | [], _ => ([], Except.ok ())
  | d :: ds, i =>
    match oracle i with
    | some e => ([], Except.error e)
    | none =>
      let r := runDirectives oracle ds (i + 1)
      (d :: r.1, r.2)

/-- Which printer routine a front end invokes. -/
inductive Routine where
  | textBox | qrCode
deriving DecidableEq

/-- Dispatch of `run_cli_print` (cli.rs lines 92-96): `print_qr_code` when
`encode == Some(true)`, `print_task` otherwise. -/
def run_cli_dispatch (t : PrintTask) : Routine :=
  if t.encode = some true then Routine.qrCode else Routine.textBox

/-- Dispatch of the HTTP `print_handler` (api.rs lines 152-173): the body
calls `print_task(task)` unconditionally, with no test of `encode`. -/
def print_handler_dispatch (_ : PrintTask) : Routine := Routine.textBox

/-- Whether the routine evaluates a box-rendering function: `print_task`
always computes `generate_task_string` or `generate_note_string`
(printer.rs lines 87-91); `print_qr_code` computes neither. -/
def invokesBoxRenderer : Routine → Bool
  | Routine.textBox => true
  | Routine.qrCode => false

/-- A fixed well-formed current-date string for instantiating `today`. -/
def today0 : List Char := "12/10/2026".toList

theorem csize_ascii {c : Char} (h : c.toNat < 128) : csize c = 1 := by
  simp [csize, h]

theorem utf8Len_cons (c : Char) (s : List Char) : utf8Len (c :: s) = csize c + utf8Len s := by
  simp [utf8Len]

theorem utf8Len_ascii {l : List Char} (h : AsciiStr l) : utf8Len l = l.length := by
  induction l with
  | nil => rfl
  | cons c s ih =>
    have hc : c.toNat < 128 := h c (by simp)
    have hs : AsciiStr s := fun x hx => h x (by simp [hx])
    rw [utf8Len_cons, csize_ascii hc, ih hs, List.length_cons]
    omega

theorem ascii_append {a b : List Char} (ha : AsciiStr a) (hb : AsciiStr b) :
    AsciiStr (a ++ b) := by
  intro c hc
  rcases List.mem_append.mp hc with h | h
  · exact ha c h
  · exact hb c h

theorem ascii_replicate_space (n : Nat) : AsciiStr (List.replicate n ' ') := by
  intro c hc
  rw [List.eq_of_mem_replicate hc]
  decide

theorem ascii_padRight {s : List Char} (h : AsciiStr s) (w : Nat) : AsciiStr (padRight s w) :=
  ascii_append h (ascii_replicate_space _)

theorem ascii_take {l : List Char} (h : AsciiStr l) (n : Nat) : AsciiStr (l.take n) :=
  fun c hc => h c (List.mem_of_mem_take hc)

theorem length_padRight (s : List Char) (w : Nat) : (padRight s w).length = max s.length w := by
  simp [padRight]
  omega

theorem takeBytes_ascii : ∀ (l : List Char) (n : Nat), AsciiStr l → n ≤ l.length →
    takeBytes l n = some (l.take n) := by
  intro l
  induction l with
  | nil =>
    intro n _ hn
    have : n = 0 := Nat.le_zero.mp hn
    subst this
    rfl
  | cons c s ih =>
    intro n h hn
    match n with
    | 0 => rfl
    | n + 1 =>
      have hc : csize c = 1 := csize_ascii (h c (by simp))
      have hs : AsciiStr s := fun x hx => h x (by simp [hx])
      have hn' : n ≤ s.length := by simpa using hn
      simp [takeBytes, hc, ih n hs hn']

theorem dropBytes_ascii : ∀ (l : List Char) (n : Nat), AsciiStr l → n ≤ l.length →
    dropBytes l n = some (l.drop n) := by
  intro l
  induction l with
  | nil =>
    intro n _ hn
    have : n = 0 := Nat.le_zero.mp hn
    subst this
    rfl
  | cons c s ih =>
    intro n h hn
    match n with
    | 0 => rfl
    | n + 1 =>
      have hc : csize c = 1 := csize_ascii (h c (by simp))
      have hs : AsciiStr s := fun x hx => h x (by simp [hx])
      have hn' : n ≤ s.length := by simpa using hn
      simp [dropBytes, hc, ih n hs hn']

theorem takeBytes_utf8Len : ∀ (l : List Char) (n : Nat) (r : List Char),
    takeBytes l n = some r → utf8Len r = n := by
  intro l
  induction l with
  | nil =>
    intro n r h
    match n with
    | 0 =>
      simp [takeBytes] at h
      subst h
      rfl
    | _ + 1 => simp [takeBytes] at h
  | cons c s ih =>
    intro n r h
    match n with
    | 0 =>
      simp [takeBytes] at h
      subst h
      rfl
    | n + 1 =>
      by_cases hcs : csize c ≤ n + 1
      · simp [takeBytes, hcs] at h
        obtain ⟨t, ht, rfl⟩ := h
        rw [utf8Len_cons, ih _ t ht]
        omega
      · simp [takeBytes, hcs] at h

theorem chunks24_eq_nil : chunks24 [] = [] := by
  rw [chunks24]
  simp

theorem chunks24_eq_cons {l : List Char} (h : l ≠ []) :
    chunks24 l = l.take 24 :: chunks24 (l.drop 24) := by
  rw [chunks24]
  simp [h]

theorem chunks24_length_aux : ∀ (n : Nat) (l : List Char), l.length ≤ n →
    (chunks24 l).length = (l.length + 23) / 24 := by
  intro n
  induction n with
  | zero =>
    intro l hl
    have : l = [] := List.length_eq_zero.mp (Nat.le_zero.mp hl)
    subst this
    simp [chunks24_eq_nil]
  | succ n ih =>
    intro l hl
    by_cases h : l = []
    · subst h
      simp [chunks24_eq_nil]
    · rw [chunks24_eq_cons h]
      have h1 : 0 < l.length := List.length_pos.mpr h
      have h2 : (l.drop 24).length ≤ n := by
        simp [List.length_drop]
        omega
      rw [List.length_cons, ih _ h2, List.length_drop]
      omega

theorem chunks24_length (l : List Char) : (chunks24 l).length = (l.length + 23) / 24 :=
  chunks24_length_aux l.length l (Nat.le_refl _)

theorem chunks24_flatten_aux : ∀ (n : Nat) (l : List Char), l.length ≤ n →
    (chunks24 l).flatten = l := by
  intro n
  induction n with
  | zero =>
    intro l hl
    have : l = [] := List.length_eq_zero.mp (Nat.le_zero.mp hl)
    subst this
    simp [chunks24_eq_nil]
  | succ n ih =>
    intro l hl
    by_cases h : l = []
    · subst h
      simp [chunks24_eq_nil]
    · rw [chunks24_eq_cons h]
      have h1 : 0 < l.length := List.length_pos.mpr h
      have h2 : (l.drop 24).length ≤ n := by
        simp [List.length_drop]
        omega
      rw [List.flatten_cons, ih _ h2, List.take_append_drop]

theorem chunks24_flatten (l : List Char) : (chunks24 l).flatten = l :=
  chunks24_flatten_aux l.length l (Nat.le_refl _)

theorem chunks24_subset {l c : List Char} (hc : c ∈ chunks24 l) : ∀ x ∈ c, x ∈ l := by
  intro x hx
  have : x ∈ (chunks24 l).flatten := List.mem_flatten.mpr ⟨c, hc, hx⟩
  rwa [chunks24_flatten] at this

theorem chunks24_len_le_aux : ∀ (n : Nat) (l : List Char), l.length ≤ n →
    ∀ c ∈ chunks24 l, c.length ≤ 24 := by
  intro n
  induction n with
  | zero =>
    intro l hl
    have : l = [] := List.length_eq_zero.mp (Nat.le_zero.mp hl)
    subst this
    simp [chunks24_eq_nil]
  | succ n ih =>
    intro l hl c hc
    by_cases h : l = []
    · subst h
      simp [chunks24_eq_nil] at hc
    · rw [chunks24_eq_cons h] at hc
      have h2 : (l.drop 24).length ≤ n := by
        have h1 : 0 < l.length := List.length_pos.mpr h
        simp [List.length_drop]
        omega
      rcases List.mem_cons.mp hc with rfl | hc'
      · simp [List.length_take]
      · exact ih _ h2 c hc'

theorem chunks24_len_le (l : List Char) : ∀ c ∈ chunks24 l, c.length ≤ 24 :=
  chunks24_len_le_aux l.length l (Nat.le_refl _)

theorem chunkGo_stop {fuel : Nat} {line : List Char} {start : Nat}
    (h : ¬ start < utf8Len line) : chunkGo (fuel + 1) line start = some [] := by
  simp [chunkGo, h]

theorem chunkGo_step {fuel : Nat} {line : List Char} {start : Nat} {seg : List Char}
    (h : start < utf8Len line)
    (hs : sliceBytes line start (min (start + 24) (utf8Len line)) = some seg) :
    chunkGo (fuel + 1) line start =
      Option.map (fun rest => seg :: rest) (chunkGo fuel line (start + 24)) := by
  simp only [chunkGo, if_pos h, hs]
  cases chunkGo fuel line (start + 24) <;> rfl

theorem chunkGo_ascii {line : List Char} (hA : AsciiStr line) :
    ∀ (fuel start : Nat), line.length ≤ start + 24 * fuel →
      chunkGo (fuel + 1) line start = some (chunks24 (line.drop start)) := by
  have hlen : utf8Len line = line.length := utf8Len_ascii hA
  intro fuel
  induction fuel with
  | zero =>
    intro start h
    have hle : line.length ≤ start := by omega
    rw [chunkGo_stop (by omega)]
    rw [List.drop_eq_nil_of_le hle, chunks24_eq_nil]
  | succ fuel ih =>
    intro start h
    by_cases hs : start < line.length
    · have hslice : sliceBytes line start (min (start + 24) (utf8Len line)) =
          some ((line.drop start).take 24) := by
        unfold sliceBytes
        rw [dropBytes_ascii line start hA (Nat.le_of_lt hs)]
        have hAd : AsciiStr (line.drop start) := fun x hx => hA x (List.mem_of_mem_drop hx)
        have hld : (line.drop start).length = line.length - start := List.length_drop _ _
        rw [hlen]
        by_cases hcase : start + 24 ≤ line.length
        · rw [min_eq_left hcase]
          have h24 : start + 24 - start = 24 := by omega
          rw [h24]
          exact takeBytes_ascii _ 24 hAd (by omega)
        · rw [min_eq_right (by omega)]
          show takeBytes (line.drop start) (line.length - start) = _
          rw [takeBytes_ascii _ (line.length - start) hAd (by omega)]
          rw [List.take_of_length_le (by omega), List.take_of_length_le (by omega)]
      rw [chunkGo_step (by omega) hslice, ih (start + 24) (by omega)]
      have hne : line.drop start ≠ [] := by
        intro hcon
        have := congrArg List.length hcon
        simp [List.length_drop] at this
        omega
      have hmap : Option.map (fun rest => (line.drop start).take 24 :: rest)
          (some (chunks24 (line.drop (start + 24)))) =
          some ((line.drop start).take 24 :: chunks24 (line.drop (start + 24))) := rfl
      rw [hmap, chunks24_eq_cons hne, List.drop_drop]
    · have hle : line.length ≤ start := Nat.le_of_not_lt hs
      rw [chunkGo_stop (by omega)]
      rw [List.drop_eq_nil_of_le hle, chunks24_eq_nil]

theorem chunks_ascii {line : List Char} (hA : AsciiStr line) :
    chunks line = some (chunks24 line) := by
  unfold chunks
  have := chunkGo_ascii hA line.length 0 (by omega)
  rwa [List.drop_zero] at this

theorem formatSegment_ascii {seg : List Char} (h : AsciiStr seg) :
    formatSegment seg = some ((padRight seg 20).take 20) := by
  unfold formatSegment
  exact takeBytes_ascii _ 20 (ascii_padRight h 20) (by rw [length_padRight]; omega)

theorem mapM_formatSegment : ∀ (cs : List (List Char)), (∀ c ∈ cs, AsciiStr c) →
    cs.mapM formatSegment = some (cs.map (fun c => (padRight c 20).take 20)) := by
  intro cs
  induction cs with
  | nil => intro _; rfl
  | cons c cs ih =>
    intro h
    rw [List.mapM_cons, formatSegment_ascii (h c (by simp)), ih (fun x hx => h x (by simp [hx]))]
    rfl

theorem splitNL_ne_nil : ∀ (s : List Char), splitNL s ≠ [] := by
  intro s
  induction s with
  | nil => simp [splitNL]
  | cons c s ih =>
    by_cases hc : c = '\n'
    · simp [splitNL, hc]
    · simp only [splitNL, if_neg hc]
      cases hsp : splitNL s <;> simp

theorem splitNL_no_nl : ∀ (s : List Char), ∀ l ∈ splitNL s, '\n' ∉ l := by
  intro s
  induction s with
  | nil =>
    intro l hl
    simp [splitNL] at hl
    simp [hl]
  | cons c s ih =>
    intro l hl
    by_cases hc : c = '\n'
    · simp only [splitNL, if_pos hc] at hl
      rcases List.mem_cons.mp hl with rfl | hl'
      · simp
      · exact ih l hl'
    · simp only [splitNL, if_neg hc] at hl
      cases hsp : splitNL s with
      | nil => exact absurd hsp (splitNL_ne_nil s)
      | cons p ps =>
        rw [hsp] at hl
        rcases List.mem_cons.mp hl with rfl | hl'
        · intro hmem
          rcases List.mem_cons.mp hmem with h1 | h1
          · exact hc h1.symm
          · exact ih p (by rw [hsp]; exact List.mem_cons_self _ _) h1
        · exact ih l (by rw [hsp]; exact List.mem_cons_of_mem _ hl')

theorem splitNL_subset : ∀ (s : List Char), ∀ l ∈ splitNL s, ∀ x ∈ l, x ∈ s := by
  intro s
  induction s with
  | nil =>
    intro l hl
    simp [splitNL] at hl
    simp [hl]
  | cons c s ih =>
    intro l hl x hx
    by_cases hc : c = '\n'
    · simp only [splitNL, if_pos hc] at hl
      rcases List.mem_cons.mp hl with rfl | hl'
      · simp at hx
      · exact List.mem_cons_of_mem _ (ih l hl' x hx)
    · simp only [splitNL, if_neg hc] at hl
      cases hsp : splitNL s with
      | nil => exact absurd hsp (splitNL_ne_nil s)
      | cons p ps =>
        rw [hsp] at hl
        rcases List.mem_cons.mp hl with rfl | hl'
        · rcases List.mem_cons.mp hx with rfl | hx'
          · exact List.mem_cons_self _ _
          · exact List.mem_cons_of_mem _ (ih p (by rw [hsp]; exact List.mem_cons_self _ _) x hx')
        · exact List.mem_cons_of_mem _ (ih l (by rw [hsp]; exact List.mem_cons_of_mem _ hl') x hx)

theorem splitNL_single {s : List Char} (h : '\n' ∉ s) : splitNL s = [s] := by
  induction s with
  | nil => rfl
  | cons c s ih =>
    have hc : c ≠ '\n' := fun hcc => h (by simp [hcc])
    have hs : '\n' ∉ s := fun hss => h (by simp [hss])
    simp only [splitNL, if_neg hc, ih hs]

theorem splitNL_append {a : List Char} (b : List Char) (h : '\n' ∉ a) :
    splitNL (a ++ '\n' :: b) = a :: splitNL b := by
  induction a with
  | nil => simp [splitNL]
  | cons c a ih =>
    have hc : c ≠ '\n' := fun hcc => h (by simp [hcc])
    have ha : '\n' ∉ a := fun haa => h (by simp [haa])
    simp only [List.cons_append, splitNL, if_neg hc]
    rw [show splitNL (a.append ('\n' :: b)) = splitNL (a ++ '\n' :: b) from rfl, ih ha]

theorem rstripCR_subset {l : List Char} : ∀ x ∈ rstripCR l, x ∈ l := by
  intro x hx
  unfold rstripCR at hx
  split at hx
  · exact List.dropLast_subset _ hx
  · exact hx

theorem assembleLines_mem : ∀ (ps : List (List Char)) (l : List Char),
    l ∈ assembleLines ps → ∃ p ∈ ps, l = rstripCR p ∨ l = p := by
  intro ps
  induction ps with
  | nil => intro l hl; simp [assembleLines] at hl
  | cons p ps ih =>
    intro l hl
    cases ps with
    | nil =>
      by_cases hp : p = []
      · simp [assembleLines, hp] at hl
      · simp [assembleLines, hp] at hl
        exact ⟨p, by simp, Or.inr hl⟩
    | cons q ps' =>
      simp only [assembleLines] at hl
      rcases List.mem_cons.mp hl with rfl | hl'
      · exact ⟨p, by simp, Or.inl rfl⟩
      · obtain ⟨r, hr, hor⟩ := ih l hl'
        exact ⟨r, List.mem_cons_of_mem _ hr, hor⟩

theorem linesOf_mem {s l : List Char} (hl : l ∈ linesOf s) :
    ∃ p ∈ splitNL s, ∀ x ∈ l, x ∈ p := by
  obtain ⟨p, hp, hor⟩ := assembleLines_mem _ l hl
  refine ⟨p, hp, ?_⟩
  rcases hor with rfl | rfl
  · exact fun x hx => rstripCR_subset x hx
  · exact fun x hx => hx

theorem linesOf_no_nl {s l : List Char} (hl : l ∈ linesOf s) : '\n' ∉ l := by
  obtain ⟨p, hp, hsub⟩ := linesOf_mem hl
  intro hmem
  exact splitNL_no_nl s p hp (hsub _ hmem)

theorem linesOf_subset {s l : List Char} (hl : l ∈ linesOf s) : ∀ x ∈ l, x ∈ s := by
  obtain ⟨p, hp, hsub⟩ := linesOf_mem hl
  exact fun x hx => splitNL_subset s p hp x (hsub x hx)

theorem linesOf_ascii {s l : List Char} (hA : AsciiStr s) (hl : l ∈ linesOf s) : AsciiStr l :=
  fun x hx => hA x (linesOf_subset hl x hx)

theorem linesOf_single {s : List Char} (h1 : s ≠ []) (h2 : '\n' ∉ s) : linesOf s = [s] := by
  unfold linesOf
  rw [splitNL_single h2]
  simp [assembleLines, h1]

theorem bodyRow_eq (f : List Char) : bodyRow f = '│' :: ' ' :: (f ++ [' ', '│']) := rfl

theorem dateTok_head : dateTok = '{' :: "date\x7d".toList := rfl

theorem replaceGo_brace (repl x : List Char) : ∀ (a : List Char) (fuel : Nat), '{' ∉ a →
    replaceGo (a.length + fuel) dateTok repl (a ++ x) = a ++ replaceGo fuel dateTok repl x := by
  intro a
  induction a with
  | nil => intro fuel _; simp
  | cons c a ih =>
    intro fuel h
    have hc : c ≠ '{' := fun hcc => h (by simp [hcc])
    have ha : '{' ∉ a := fun haa => h (by simp [haa])
    have hpre : dateTok.isPrefixOf (c :: (a ++ x)) = false := by
      rw [dateTok_head]
      simp [List.isPrefixOf]
      intro hcc
      exact absurd hcc.symm hc
    have hstep : replaceGo ((a.length + fuel) + 1) dateTok repl (c :: (a ++ x)) =
        c :: replaceGo (a.length + fuel) dateTok repl (a ++ x) := by
      simp only [replaceGo, hpre]
      simp
    have hlen : (c :: a).length + fuel = (a.length + fuel) + 1 := by simp; omega
    rw [List.cons_append, hlen, hstep, ih fuel ha]
    rfl

theorem runDirectives_ok_iff (oracle : Nat → Option Nat) : ∀ (ds : List Directive) (i : Nat),
    (runDirectives oracle ds i).2 = Except.ok () ↔ ∀ j < ds.length, oracle (i + j) = none := by
  intro ds
  induction ds with
  | nil => intro i; simp [runDirectives]
  | cons d ds ih =>
    intro i
    cases ho : oracle i with
    | some e =>
      simp only [runDirectives, ho]
      constructor
      · intro hcon; exact absurd hcon (by simp)
      · intro hall
        have := hall 0 (by simp)
        rw [Nat.add_zero, ho] at this
        exact absurd this (by simp)
    | none =>
      simp only [runDirectives, ho]
      rw [ih (i + 1)]
      constructor
      · intro hall j hj
        cases j with
        | zero => simpa using ho
        | succ j =>
          have := hall j (by simp at hj; omega)
          rwa [show i + 1 + j = i + (j + 1) by omega] at this
      · intro hall j hj
        have := hall (j + 1) (by simp; omega)
        rwa [show i + (j + 1) = i + 1 + j by omega] at this

theorem runDirectives_ok_trace (oracle : Nat → Option Nat) : ∀ (ds : List Directive) (i : Nat),
    (runDirectives oracle ds i).2 = Except.ok () → (runDirectives oracle ds i).1 = ds := by
  intro ds
  induction ds with
  | nil => intro i _; rfl
  | cons d ds ih =>
    intro i h
    cases ho : oracle i with
    | some e =>
      rw [show runDirectives oracle (d :: ds) i = ([], Except.error e) by
        simp [runDirectives, ho]] at h
      exact absurd h (by simp)
    | none =>
      simp only [runDirectives, ho] at h ⊢
      rw [ih (i + 1) h]

theorem runDirectives_fail (oracle : Nat → Option Nat) : ∀ (ds : List Directive) (i k e : Nat),
    (∀ j < k, oracle (i + j) = none) → oracle (i + k) = some e → k < ds.length →
    runDirectives oracle ds i = (ds.take k, Except.error e) := by
  intro ds
  induction ds with
  | nil => intro i k e _ _ hk; simp at hk
  | cons d ds ih =>
    intro i k e hmin hk hlen
    cases k with
    | zero =>
      rw [Nat.add_zero] at hk
      simp [runDirectives, hk]
    | succ k =>
      have h0 : oracle i = none := by
        have := hmin 0 (by omega)
        rwa [Nat.add_zero] at this
      have hrec := ih (i + 1) k e
        (fun j hj => by
          rw [show i + 1 + j = i + (j + 1) by omega]
          exact hmin (j + 1) (by omega))
        (by rwa [show i + 1 + k = i + (k + 1) by omega])
        (by simp at hlen; omega)
      simp only [runDirectives, h0, hrec]
      rw [List.take_succ_cons]

theorem rep_title (t : List Char) :
    replaceAll titleTok t frame_title_box = '│' :: ' ' :: (t ++ " {date} │".toList) := rfl

theorem peel2 (k : Nat) (d rest : List Char) :
    replaceGo (k + 2) dateTok d ('│' :: ' ' :: rest) = '│' :: ' ' :: replaceGo k dateTok d rest := rfl

theorem hrow_eq {t : List Char} (d : List Char) (h : '{' ∉ t) :
    replaceAll dateTok d (replaceAll titleTok t frame_title_box) =
      '│' :: ' ' :: (t ++ ' ' :: (d ++ [' ', '│'])) := by
  rw [rep_title]
  unfold replaceAll
  have hlen : ('│' :: ' ' :: (t ++ " {date} │".toList)).length = (t.length + 9) + 2 := by
    simp
  rw [hlen, peel2, replaceGo_brace d (" {date} │".toList) t 9 h,
    show replaceGo 9 dateTok d (" {date} │".toList) = ' ' :: (d ++ [' ', '│']) from rfl]

/-- Closed form of `rowsOfLine` on an all-ASCII line. -/
theorem rowsOfLine_ascii {line : List Char} (hA : AsciiStr line) :
    rowsOfLine line =
      some (((chunks24 line).map (fun c => bodyRow ((padRight c 20).take 20) ++ ['\n'])).flatten) := by
  unfold rowsOfLine
  rw [chunks_ascii hA, Option.some_bind,
    mapM_formatSegment _ (fun c hc x hx => hA x (chunks24_subset hc x hx)), Option.some_bind,
    List.map_map]
  rfl

theorem mapM_some_of_all {α β : Type} (f : α → Option β) : ∀ (ls : List α),
    (∀ l ∈ ls, ∃ t, f l = some t) → ∃ rs, ls.mapM f = some rs := by
  intro ls
  induction ls with
  | nil => exact fun _ => ⟨[], rfl⟩
  | cons a as ih =>
    intro h
    obtain ⟨t, ht⟩ := h a (by simp)
    obtain ⟨rs, hrs⟩ := ih (fun x hx => h x (by simp [hx]))
    rw [List.mapM_cons, ht, hrs]
    exact ⟨t :: rs, rfl⟩

/-- The message body text of a one-line all-ASCII message. -/
theorem bodyText_single {msg : List Char} (hA : AsciiStr msg) (h1 : msg ≠ [])
    (h2 : '\n' ∉ msg) :
    bodyText msg =
      some (((chunks24 msg).map (fun c => bodyRow ((padRight c 20).take 20) ++ ['\n'])).flatten) := by
  unfold bodyText
  rw [linesOf_single h1 h2]
  simp [List.mapM.loop, rowsOfLine_ascii hA]

theorem bodyText_nil : bodyText [] = some [] := rfl

/-- The message body text of any all-ASCII message is defined. -/
theorem bodyText_ascii {msg : List Char} (hA : AsciiStr msg) :
    ∃ body, bodyText msg = some body := by
  unfold bodyText
  obtain ⟨rs, hrs⟩ := mapM_some_of_all rowsOfLine (linesOf msg)
    (fun l hl => ⟨_, rowsOfLine_ascii (linesOf_ascii hA hl)⟩)
  rw [hrs]
  exact ⟨rs.flatten, rfl⟩

/-- Successful evaluation of `generate_task_string` on an all-ASCII task whose
date field slices cleanly, with the rendered output in closed form. -/
theorem gts_eq {today : List Char} {t : PrintTask} {title pre body : List Char}
    (ht : t.title = some title) (htA : AsciiStr title) (hbr : '{' ∉ title)
    (hpre : takeBytes (t.date.getD today) 5 = some pre) (hpA : AsciiStr pre)
    (hbody : bodyText t.message = some body) :
    generate_task_string today t =
      some (frame_header ++ '\n' ::
        (('│' :: ' ' :: ((padRight title 14).take 14 ++ ' ' :: (pre ++ [' ', '│']))) ++ '\n' ::
          (frame_separator ++ '\n' :: (body ++ frame_footer)))) := by
  have hpre5 : pre.length = 5 := by
    have := takeBytes_utf8Len _ _ _ hpre
    rw [utf8Len_ascii hpA] at this
    exact this
  have ht14 : takeBytes (padRight (t.title.getD ("NOTE".toList)) 14) 14 =
      some ((padRight title 14).take 14) := by
    rw [ht]
    exact takeBytes_ascii _ 14 (ascii_padRight htA 14) (by rw [length_padRight]; omega)
  have hd5 : takeBytes (padLeft pre 5) 5 = some pre := by
    have : padLeft pre 5 = pre := by
      unfold padLeft
      rw [hpre5]
      simp
    rw [this, takeBytes_ascii _ 5 hpA (by omega), List.take_of_length_le (by omega)]
  have hbrace14 : '{' ∉ (padRight title 14).take 14 := by
    intro hmem
    have := List.mem_of_mem_take hmem
    unfold padRight at this
    rcases List.mem_append.mp this with h | h
    · exact hbr h
    · have := List.eq_of_mem_replicate h
      exact absurd this (by decide)
  unfold generate_task_string
  rw [hpre, Option.some_bind, ht14, Option.some_bind, hd5, Option.some_bind, hbody,
    Option.some_bind, hrow_eq pre hbrace14]

/-- An all-ASCII message never makes the note renderer panic. -/
theorem gns_ascii_total {t : PrintTask} (hmsg : AsciiStr t.message) :
    (generate_note_string t).isSome = true := by
  obtain ⟨body, hb⟩ := bodyText_ascii hmsg
  unfold generate_note_string
  rw [hb, Option.some_bind]
  rfl

/-- ASCII title and message plus a cleanly slicing date make the task renderer total. -/
theorem gts_ascii_total {today : List Char} {t : PrintTask} {pre : List Char}
    (htA : AsciiStr (t.title.getD ("NOTE".toList)))
    (hpre : takeBytes (t.date.getD today) 5 = some pre) (hpA : AsciiStr pre)
    (hmsg : AsciiStr t.message) :
    (generate_task_string today t).isSome = true := by
  have hpre5 : pre.length = 5 := by
    have := takeBytes_utf8Len _ _ _ hpre
    rw [utf8Len_ascii hpA] at this
    exact this
  have hd5 : takeBytes (padLeft pre 5) 5 = some pre := by
    have hpl : padLeft pre 5 = pre := by
      unfold padLeft
      rw [hpre5]
      simp
    rw [hpl, takeBytes_ascii _ 5 hpA (by omega), List.take_of_length_le (by omega)]
  obtain ⟨body, hb⟩ := bodyText_ascii hmsg
  unfold generate_task_string
  rw [hpre, Option.some_bind,
    takeBytes_ascii _ 14 (ascii_padRight htA 14) (by rw [length_padRight]; omega),
    Option.some_bind, hd5, Option.some_bind, hb, Option.some_bind]
  rfl

theorem sum_map_ones {α : Type} (g : α → Nat) : ∀ (l : List α), (∀ x ∈ l, g x = 1) →
    (l.map g).sum = l.length := by
  intro l
  induction l with
  | nil => intro _; rfl
  | cons a as ih =>
    intro h
    rw [List.map_cons, List.sum_cons, h a (by simp), ih (fun x hx => h x (by simp [hx]))]
    simp
    omega

theorem not_nl_padRight {s : List Char} (h : '\n' ∉ s) (w : Nat) : '\n' ∉ padRight s w := by
  intro hm
  unfold padRight at hm
  rcases List.mem_append.mp hm with h1 | h1
  · exact h h1
  · exact absurd (List.eq_of_mem_replicate h1) (by decide)

theorem not_nl_padtake {s : List Char} (h : '\n' ∉ s) (w k : Nat) :
    '\n' ∉ (padRight s w).take k :=
  fun hm => not_nl_padRight h w (List.mem_of_mem_take hm)

/-- The concrete task of End-to-end scenario 3: `encode: true`, no title. -/
def c1_task : PrintTask :=
  { title := none, message := "hello".toList, date := none, encode := some true,
    address := none, port := none, codepage := none }

/-- Claim C1 (evaluation of the code at the failing input): for a request with
`encode = true`, the CLI dispatch selects the QR routine, but the HTTP
`print_handler` unconditionally invokes `print_task`, which evaluates a
box-rendering function — contrary to the claimed behaviour of the `/print`
path. -/
theorem C1_print_handler_ignores_encode :
    c1_task.encode = some true ∧
    print_handler_dispatch c1_task = Routine.textBox ∧
    invokesBoxRenderer (print_handler_dispatch c1_task) = true ∧
    run_cli_dispatch c1_task = Routine.qrCode ∧
    invokesBoxRenderer (run_cli_dispatch c1_task) = false ∧
    printTaskMessage today0 c1_task = generate_note_string c1_task ∧
    (generate_note_string c1_task).isSome = true := by
  refine ⟨rfl, rfl, rfl, by decide, by decide, rfl, by decide⟩

/-- Claim C2: for any device behaviour, in both `print_task` and
`print_qr_code`, a failing directive call aborts the rest of the sequence
(the issued trace is exactly the directives before the failure, and contains
no cut), the underlying error is returned, and `Ok` is returned exactly when
every directive including the final cut succeeded (in which case the whole
sequence was issued). -/
theorem C2_directive_failure_semantics (oracle : Nat → Option Nat) (t : PrintTask)
    (msg : List Char) :
    (∀ k e, (∀ j < k, oracle j = none) → oracle k = some e →
      k < (print_task_directives t msg).length →
      runDirectives oracle (print_task_directives t msg) 0 =
        ((print_task_directives t msg).take k, Except.error e) ∧
      Directive.printCut ∉ (print_task_directives t msg).take k) ∧
    ((runDirectives oracle (print_task_directives t msg) 0).2 = Except.ok () ↔
      ∀ j < (print_task_directives t msg).length, oracle j = none) ∧
    ((runDirectives oracle (print_task_directives t msg) 0).2 = Except.ok () →
      (runDirectives oracle (print_task_directives t msg) 0).1 = print_task_directives t msg) ∧
    (∀ k e, (∀ j < k, oracle j = none) → oracle k = some e →
      k < (print_qr_directives t).length →
      runDirectives oracle (print_qr_directives t) 0 =
        ((print_qr_directives t).take k, Except.error e) ∧
      Directive.printCut ∉ (print_qr_directives t).take k) ∧
    ((runDirectives oracle (print_qr_directives t) 0).2 = Except.ok () ↔
      ∀ j < (print_qr_directives t).length, oracle j = none) ∧
    ((runDirectives oracle (print_qr_directives t) 0).2 = Except.ok () →
      (runDirectives oracle (print_qr_directives t) 0).1 = print_qr_directives t) := by
  have hfail : ∀ (ds : List Directive) (k e : Nat), (∀ j < k, oracle j = none) →
      oracle k = some e → k < ds.length →
      runDirectives oracle ds 0 = (ds.take k, Except.error e) := by
    intro ds k e hmin hk hlen
    exact runDirectives_fail oracle ds 0 k e
      (fun j hj => by rw [Nat.zero_add]; exact hmin j hj) (by rwa [Nat.zero_add]) hlen
  have hcut_task : ∀ k, k < (print_task_directives t msg).length →
      Directive.printCut ∉ (print_task_directives t msg).take k := by
    intro k hlen hmem
    have hk9 : k ≤ 9 := by
      simp [print_task_directives] at hlen
      omega
    have : (print_task_directives t msg).take k =
        ((print_task_directives t msg).take 9).take k := by
      rw [List.take_take, min_eq_left hk9]
    rw [this] at hmem
    have := List.mem_of_mem_take hmem
    simp [print_task_directives] at this
  have hcut_qr : ∀ k, k < (print_qr_directives t).length →
      Directive.printCut ∉ (print_qr_directives t).take k := by
    intro k hlen hmem
    have hk8 : k ≤ 8 := by
      simp [print_qr_directives] at hlen
      omega
    have : (print_qr_directives t).take k = ((print_qr_directives t).take 8).take k := by
      rw [List.take_take, min_eq_left hk8]
    rw [this] at hmem
    have := List.mem_of_mem_take hmem
    simp [print_qr_directives] at this
  refine ⟨fun k e hmin hk hlen => ⟨hfail _ k e hmin hk hlen, hcut_task k hlen⟩,
    by simpa using runDirectives_ok_iff oracle (print_task_directives t msg) 0,
    runDirectives_ok_trace oracle _ 0,
    fun k e hmin hk hlen => ⟨hfail _ k e hmin hk hlen, hcut_qr k hlen⟩,
    by simpa using runDirectives_ok_iff oracle (print_qr_directives t) 0,
    runDirectives_ok_trace oracle _ 0⟩

def c2_oracle : Nat → Option Nat := fun i => if i = 2 then some 7 else none

def c2_task : PrintTask :=
  { title := some ("T".toList), message := "msg".toList, date := none, encode := none,
    address := none, port := none, codepage := none }

/-- Witness for C2: with a device failing at the third directive call, the
run of `print_task`'s sequence issues only the first two directives, returns
the error, and never cuts. -/
theorem C2_witness :
    runDirectives c2_oracle (print_task_directives c2_task ("MSG".toList)) 0 =
      ((print_task_directives c2_task ("MSG".toList)).take 2, Except.error 7) ∧
    Directive.printCut ∉ (print_task_directives c2_task ("MSG".toList)).take 2 :=
  (C2_directive_failure_semantics c2_oracle c2_task ("MSG".toList)).1 2 7
    (by decide) (by decide) (by decide)

/-- Claim C7: with no title and `encode` false or unset, both front ends
dispatch to `print_task`, which renders the note layout, and the second line
of any rendered note box is the fixed NOTE label row, whatever the message. -/
theorem C7_note_layout (today : List Char) (t : PrintTask) (ht : t.title = none)
    (henc : t.encode = some false ∨ t.encode = none) :
    run_cli_dispatch t = Routine.textBox ∧
    print_handler_dispatch t = Routine.textBox ∧
    printTaskMessage today t = generate_note_string t ∧
    ∀ out, generate_note_string t = some out →
      ∃ rest, splitNL out = frame_header :: note_title_box :: rest := by
  refine ⟨?_, rfl, ?_, ?_⟩
  · unfold run_cli_dispatch
    rcases henc with h | h <;> simp [h]
  · unfold printTaskMessage
    rw [ht]
    rfl
  · intro out hout
    unfold generate_note_string at hout
    cases hbt : bodyText t.message with
    | none =>
      rw [hbt] at hout
      exact absurd hout (by simp)
    | some body =>
      rw [hbt, Option.some_bind] at hout
      obtain rfl := Option.some.inj hout
      rw [splitNL_append _ (by decide), splitNL_append _ (by decide)]
      exact ⟨_, rfl⟩

def c7_task : PrintTask :=
  { title := none, message := "ping".toList, date := none, encode := none,
    address := none, port := none, codepage := none }

/-- Witness for C7 at a concrete untitled task. -/
theorem C7_witness :
    run_cli_dispatch c7_task = Routine.textBox ∧
    printTaskMessage today0 c7_task = generate_note_string c7_task :=
  ⟨(C7_note_layout today0 c7_task rfl (Or.inr rfl)).1,
   (C7_note_layout today0 c7_task rfl (Or.inr rfl)).2.2.1⟩

/-- Claim C8: an empty message yields a box with zero body rows: the note
renderer returns exactly the four border/label lines, and any box the task
renderer produces consists of header, title/date row, separator and footer
with nothing between separator and footer. -/
theorem C8_empty_message (today : List Char) (t : PrintTask) (h : t.message = []) :
    generate_note_string t =
      some (frame_header ++ '\n' ::
        (note_title_box ++ '\n' :: (frame_separator ++ '\n' :: frame_footer))) ∧
    ∀ out, generate_task_string today t = some out →
      ∃ hrow, out = frame_header ++ '\n' ::
        (hrow ++ '\n' :: (frame_separator ++ '\n' :: frame_footer)) := by
  constructor
  · unfold generate_note_string
    rw [h, bodyText_nil, Option.some_bind]
    rfl
  · intro out hout
    unfold generate_task_string at hout
    rcases hpre : takeBytes (t.date.getD today) 5 with _ | pre
    · rw [hpre] at hout
      exact absurd hout (by simp)
    rw [hpre, Option.some_bind] at hout
    rcases h14 : takeBytes (padRight (t.title.getD ("NOTE".toList)) 14) 14 with _ | t14
    · rw [h14] at hout
      exact absurd hout (by simp)
    rw [h14, Option.some_bind] at hout
    rcases h5 : takeBytes (padLeft pre 5) 5 with _ | d5
    · rw [h5] at hout
      exact absurd hout (by simp)
    rw [h5, Option.some_bind, h, bodyText_nil, Option.some_bind] at hout
    obtain rfl := Option.some.inj hout
    exact ⟨replaceAll dateTok d5 (replaceAll titleTok t14 frame_title_box), by simp⟩

def c8_task : PrintTask :=
  { title := none, message := [], date := none, encode := none,
    address := none, port := none, codepage := none }

/-- Witness for C8 at a concrete empty-message task. -/
theorem C8_witness :
    generate_note_string c8_task =
      some (frame_header ++ '\n' ::
        (note_title_box ++ '\n' :: (frame_separator ++ '\n' :: frame_footer))) :=
  (C8_empty_message today0 c8_task rfl).1

/-- Claim C9: any codepage name outside the recognized five resolves, on both
the text-box path and the QR path, to exactly the table an absent codepage
resolves to, namely PC850. -/
theorem C9_codepage_default (s : String)
    (h : s ∉ ["PC850", "ISO8859_15", "WPC1252", "PC437", "ISO8859_7"]) :
    print_task_codepage (some s) = print_task_codepage none ∧
    print_qr_codepage (some s) = print_qr_codepage none ∧
    print_task_codepage (some s) = PageCode.PC850 ∧
    print_qr_codepage (some s) = print_task_codepage (some s) := by
  simp only [List.mem_cons, List.not_mem_nil, or_false, not_or] at h
  obtain ⟨h1, h2, h3, h4, h5⟩ := h
  simp [print_task_codepage, print_qr_codepage, h1, h2, h3, h4, h5]

/-- Witness for C9 at the unrecognized name BOGUS. -/
theorem C9_witness :
    ("BOGUS" : String) ∉ ["PC850", "ISO8859_15", "WPC1252", "PC437", "ISO8859_7"] ∧
    (print_task_codepage (some "BOGUS") = print_task_codepage none ∧
      print_qr_codepage (some "BOGUS") = print_qr_codepage none ∧
      print_task_codepage (some "BOGUS") = PageCode.PC850 ∧
      print_qr_codepage (some "BOGUS") = print_task_codepage (some "BOGUS")) :=
  ⟨by decide, C9_codepage_default "BOGUS" (by decide)⟩

def c3_task : PrintTask :=
  { title := some ("T".toList), message := "hi".toList, date := some ("1/2".toList),
    encode := none, address := none, port := none, codepage := none }

def c3b_task : PrintTask :=
  { title := some ("T".toList), message := "hi".toList, date := some ("aabé6789".toList),
    encode := none, address := none, port := none, codepage := none }

/-- Counterexample to C3 as stated: a task whose supplied date is the
3-byte string 1/2 makes `&date_str[0..5]` panic, so the renderer aborts
instead of producing a formatted box.  And a date of at least 5 bytes whose
5-byte prefix ends in a 2-byte character slices cleanly at offset 5 but
still aborts: the prefix has only 4 characters, `{:>5}` pads it to 5
characters (6 bytes), and the second slice `[..5]` falls inside the
multi-byte character. -/
theorem C3_counterexample :
    generate_task_string today0 c3_task = none ∧ printTaskMessage today0 c3_task = none ∧
    takeBytes (c3b_task.date.getD today0) 5 = some ("aabé".toList) ∧
    generate_task_string today0 c3b_task = none ∧ printTaskMessage today0 c3b_task = none := by
  decide

/-- Claim C3 amended: malformed codepage, address and port values never
abort a print job (their normalization is total by construction), and
rendering never aborts for ASCII title and message provided the first five
bytes of any supplied date are whole ASCII characters — but a supplied date
shorter than 5 bytes aborts the task renderer at `&date_str[0..5]`, and one
whose 5-byte prefix contains a multi-byte character can abort at the second
slice `&format!("{:>5}", short)[..5]`, whose padding counts characters. -/
theorem C3_amended (today : List Char) (t : PrintTask) (pre : List Char)
    (htitle : AsciiStr (t.title.getD ("NOTE".toList)))
    (hmsg : AsciiStr t.message)
    (hpre : takeBytes (t.date.getD today) 5 = some pre)
    (hpreA : AsciiStr pre) :
    (printTaskMessage today t).isSome = true := by
  unfold printTaskMessage
  cases hti : t.title with
  | none =>
    rw [if_neg (by simp)]
    exact gns_ascii_total hmsg
  | some title =>
    rw [if_pos (by simp)]
    exact gts_ascii_total htitle hpre hpreA hmsg

def c3w_task : PrintTask :=
  { title := some ("Hello".toList), message := "world".toList,
    date := some ("01/02/2024".toList), encode := none, address := none, port := none,
    codepage := none }

/-- Witness for the amended C3 at a concrete well-formed task. -/
theorem C3_witness :
    AsciiStr (c3w_task.title.getD ("NOTE".toList)) ∧
    AsciiStr c3w_task.message ∧
    takeBytes (c3w_task.date.getD today0) 5 = some ("01/02".toList) ∧
    AsciiStr ("01/02".toList) ∧
    (printTaskMessage today0 c3w_task).isSome = true :=
  ⟨by decide, by decide, by decide, by decide,
   C3_amended today0 c3w_task ("01/02".toList) (by decide) (by decide) (by decide) (by decide)⟩

/-- Counterexample to C4 as stated: a line of exactly 48 characters, each a
2-byte character, contributes 4 body rows, not 2 — the chunk width counts
bytes, not characters. -/
theorem C4_counterexample :
    (List.replicate 48 'é').length = 48 ∧
    (rowsOfLine (List.replicate 48 'é')).map (fun txt => txt.count '\n') = some 4 ∧
    (rowsOfLine (List.replicate 48 'é')).map (fun txt => txt.count '\n') ≠ some 2 := by
  refine ⟨by decide, by decide, by decide⟩

/-- Claim C4 amended to ASCII lines (where byte and character counts
coincide): every line of the message is greedily chunked into
`ceil(len/24)` contiguous segments of at most 24 characters, one body row
per segment; lines of exactly 48 and 49 characters contribute exactly 2 and
3 body rows. -/
theorem C4_amended (t : PrintTask) (line : List Char)
    (hmem : line ∈ linesOf t.message) (hA : AsciiStr line) :
    ∃ txt cs, rowsOfLine line = some txt ∧ chunks line = some cs ∧
      txt.count '\n' = (line.length + 23) / 24 ∧
      cs.length = (line.length + 23) / 24 ∧
      cs.flatten = line ∧ (∀ c ∈ cs, c.length ≤ 24) ∧
      (line.length = 48 → txt.count '\n' = 2) ∧
      (line.length = 49 → txt.count '\n' = 3) := by
  have hnl : '\n' ∉ line := linesOf_no_nl hmem
  have hone : ∀ c ∈ chunks24 line,
      List.count '\n' (bodyRow ((padRight c 20).take 20) ++ ['\n']) = 1 := by
    intro c hc
    have hcs : '\n' ∉ c := fun hm => hnl (chunks24_subset hc _ hm)
    have hrow : '\n' ∉ bodyRow ((padRight c 20).take 20) := by
      rw [bodyRow_eq]
      intro hm
      rcases List.mem_cons.mp hm with h4 | h4
      · exact absurd h4 (by decide)
      rcases List.mem_cons.mp h4 with h5 | h5
      · exact absurd h5 (by decide)
      rcases List.mem_append.mp h5 with h6 | h6
      · exact not_nl_padtake hcs 20 20 h6
      · exact absurd h6 (by decide)
    rw [List.count_append, List.count_eq_zero.mpr hrow]
    decide
  have hcnt : (((chunks24 line).map
      (fun c => bodyRow ((padRight c 20).take 20) ++ ['\n'])).flatten).count '\n' =
      (line.length + 23) / 24 := by
    rw [List.count_flatten, List.map_map]
    rw [sum_map_ones _ _ (fun x hx => by simpa using hone x hx), chunks24_length]
  refine ⟨_, chunks24 line, rowsOfLine_ascii hA, chunks_ascii hA, hcnt,
    chunks24_length line, chunks24_flatten line, chunks24_len_le line,
    fun h48 => by rw [hcnt, h48], fun h49 => by rw [hcnt, h49]⟩

def c4w_task : PrintTask :=
  { title := none, message := List.replicate 48 'a', date := none, encode := none,
    address := none, port := none, codepage := none }

/-- Witness for the amended C4 at a concrete 48-character ASCII line. -/
theorem C4_witness :
    (List.replicate 48 'a' ∈ linesOf c4w_task.message) ∧
    AsciiStr (List.replicate 48 'a') ∧
    (∃ txt cs, rowsOfLine (List.replicate 48 'a') = some txt ∧
      chunks (List.replicate 48 'a') = some cs ∧
      txt.count '\n' = ((List.replicate 48 'a').length + 23) / 24 ∧
      cs.length = ((List.replicate 48 'a').length + 23) / 24 ∧
      cs.flatten = List.replicate 48 'a' ∧ (∀ c ∈ cs, c.length ≤ 24) ∧
      ((List.replicate 48 'a').length = 48 → txt.count '\n' = 2) ∧
      ((List.replicate 48 'a').length = 49 → txt.count '\n' = 3)) :=
  ⟨by decide, by decide, C4_amended c4w_task (List.replicate 48 'a') (by decide) (by decide)⟩

def c5a_task : PrintTask :=
  { title := some (List.replicate 8 'é'), message := [],
    date := some ("01/02/2024".toList), encode := none, address := none, port := none,
    codepage := none }

def c5b_task : PrintTask :=
  { title := some ("AB{date}CDEFGH".toList), message := [],
    date := some ("01/02/2024".toList), encode := none, address := none, port := none,
    codepage := none }

/-- Counterexample to C5 as stated: an 8-character title of 2-byte
characters renders a 7-character title field (truncation is at byte offset
14), and a 14-character ASCII title containing the text `{date}` renders a
13-character field (the date substitution rescans the already-substituted
title) — in both cases the title field of the header row is not 14
characters. -/
theorem C5_counterexample :
    (List.replicate 8 'é').length = 8 ∧
    (generate_task_string today0 c5a_task).bind (fun out => (splitNL out)[1]?) =
      some ('│' :: ' ' :: (List.replicate 7 'é' ++ ' ' :: ("01/02".toList ++ [' ', '│']))) ∧
    ("AB{date}CDEFGH".toList).length = 14 ∧
    (generate_task_string today0 c5b_task).bind (fun out => (splitNL out)[1]?) =
      some ("│ AB01/02CDEFGH 01/02 │".toList) ∧
    ("AB01/02CDEFGH".toList).length = 13 := by
  refine ⟨by decide, by decide, by decide, by decide, by decide⟩

/-- Claim C5 amended: for an ASCII title containing no brace character, the
title field of the rendered header row is exactly 14 characters — longer
titles are hard-truncated to their first 14 characters, shorter ones are
left-justified and right-padded with spaces to 14. -/
theorem C5_amended (today : List Char) (t : PrintTask) (title pre body : List Char)
    (ht : t.title = some title) (htA : AsciiStr title) (hbr : '{' ∉ title)
    (hpre : takeBytes (t.date.getD today) 5 = some pre) (hpA : AsciiStr pre)
    (hbody : bodyText t.message = some body) :
    generate_task_string today t =
      some (frame_header ++ '\n' ::
        (('│' :: ' ' :: ((padRight title 14).take 14 ++ ' ' :: (pre ++ [' ', '│']))) ++ '\n' ::
          (frame_separator ++ '\n' :: (body ++ frame_footer)))) ∧
    ((padRight title 14).take 14).length = 14 ∧
    (14 ≤ title.length → (padRight title 14).take 14 = title.take 14) ∧
    (title.length ≤ 14 → (padRight title 14).take 14 =
      title ++ List.replicate (14 - title.length) ' ') := by
  refine ⟨gts_eq ht htA hbr hpre hpA hbody, ?_, ?_, ?_⟩
  · rw [List.length_take, length_padRight]
    omega
  · intro h14
    unfold padRight
    rw [show 14 - title.length = 0 by omega, List.replicate_zero, List.append_nil]
  · intro h14
    unfold padRight
    exact List.take_of_length_le (by simp [List.length_replicate]; omega)

def c5w_task : PrintTask :=
  { title := some ("Alert".toList), message := [],
    date := some ("01/02/2024".toList), encode := none, address := none, port := none,
    codepage := none }

/-- Witness for the amended C5 at a concrete short ASCII title. -/
theorem C5_witness :
    c5w_task.title = some ("Alert".toList) ∧
    AsciiStr ("Alert".toList) ∧ '{' ∉ ("Alert".toList) ∧
    takeBytes (c5w_task.date.getD today0) 5 = some ("01/02".toList) ∧
    AsciiStr ("01/02".toList) ∧
    bodyText c5w_task.message = some [] ∧
    (generate_task_string today0 c5w_task =
      some (frame_header ++ '\n' ::
        (('│' :: ' ' :: ((padRight ("Alert".toList) 14).take 14 ++ ' ' ::
          ("01/02".toList ++ [' ', '│']))) ++ '\n' ::
          (frame_separator ++ '\n' :: ([] ++ frame_footer)))) ∧
     ((padRight ("Alert".toList) 14).take 14).length = 14 ∧
     (14 ≤ ("Alert".toList).length →
       (padRight ("Alert".toList) 14).take 14 = ("Alert".toList).take 14) ∧
     (("Alert".toList).length ≤ 14 → (padRight ("Alert".toList) 14).take 14 =
       "Alert".toList ++ List.replicate (14 - ("Alert".toList).length) ' ')) :=
  ⟨rfl, by decide, by decide, by decide, by decide, rfl,
   C5_amended today0 c5w_task ("Alert".toList) ("01/02".toList) []
     rfl (by decide) (by decide) (by decide) (by decide) rfl⟩

def c6_task : PrintTask :=
  { title := some ("TASK".toList), message := [],
    date := some ("01/02/2024".toList), encode := none, address := none, port := none,
    codepage := none }

/-- Counterexample to C6 as stated: a task with title present and the empty
message — of length at most 20 with no embedded line breaks — renders 4
lines, not 5: there is no body row. -/
theorem C6_counterexample :
    c6_task.title.isSome = true ∧ c6_task.message.length ≤ 20 ∧ '\n' ∉ c6_task.message ∧
    (generate_task_string today0 c6_task).map (fun out => (splitNL out).length) = some 4 ∧
    (generate_task_string today0 c6_task).map (fun out => (splitNL out).length) ≠ some 5 := by
  refine ⟨rfl, by decide, by decide, by decide, by decide⟩

/-- Claim C6 amended: for a newline-free ASCII title without braces, a
cleanly slicing newline-free date, and a nonempty ASCII message of at most
20 characters with no line break, the task renderer produces exactly 5
lines: header border, title/date row, separator, one body row, footer
border. -/
theorem C6_amended (today : List Char) (t : PrintTask) (title pre : List Char)
    (ht : t.title = some title) (htA : AsciiStr title) (hbr : '{' ∉ title)
    (htn : '\n' ∉ title)
    (hpre : takeBytes (t.date.getD today) 5 = some pre) (hpA : AsciiStr pre)
    (hpn : '\n' ∉ pre)
    (hmA : AsciiStr t.message) (hmn : '\n' ∉ t.message)
    (h1 : 1 ≤ t.message.length) (h20 : t.message.length ≤ 20) :
    ∃ out, generate_task_string today t = some out ∧
      splitNL out = [frame_header,
        '│' :: ' ' :: ((padRight title 14).take 14 ++ ' ' :: (pre ++ [' ', '│'])),
        frame_separator,
        '│' :: ' ' :: (padRight t.message 20 ++ [' ', '│']),
        frame_footer] := by
  have hne : t.message ≠ [] := by
    intro hc
    rw [hc] at h1
    simp at h1
  have hchunks : chunks24 t.message = [t.message] := by
    rw [chunks24_eq_cons hne, List.take_of_length_le (by omega),
      List.drop_eq_nil_of_le (by omega), chunks24_eq_nil]
  have htake : (padRight t.message 20).take 20 = padRight t.message 20 :=
    List.take_of_length_le (by rw [length_padRight]; omega)
  have hbody := bodyText_single hmA hne hmn
  rw [hchunks] at hbody
  simp only [List.map_cons, List.map_nil, List.flatten_cons, List.flatten_nil,
    List.append_nil] at hbody
  rw [htake, bodyRow_eq] at hbody
  refine ⟨_, gts_eq ht htA hbr hpre hpA hbody, ?_⟩
  have hrow2 : '\n' ∉ (padRight title 14).take 14 ++ ' ' :: (pre ++ [' ', '│']) := by
    intro hm
    rcases List.mem_append.mp hm with h2 | h2
    · exact not_nl_padtake htn 14 14 h2
    rcases List.mem_cons.mp h2 with h3 | h3
    · exact absurd h3 (by decide)
    rcases List.mem_append.mp h3 with h4 | h4
    · exact hpn h4
    · exact absurd h4 (by decide)
  have hrow2' : '\n' ∉ '│' :: ' ' ::
      ((padRight title 14).take 14 ++ ' ' :: (pre ++ [' ', '│'])) := by
    intro hm
    rcases List.mem_cons.mp hm with h2 | h2
    · exact absurd h2 (by decide)
    rcases List.mem_cons.mp h2 with h3 | h3
    · exact absurd h3 (by decide)
    · exact hrow2 h3
  have hbrow : '\n' ∉ '│' :: ' ' :: (padRight t.message 20 ++ [' ', '│']) := by
    intro hm
    rcases List.mem_cons.mp hm with h2 | h2
    · exact absurd h2 (by decide)
    rcases List.mem_cons.mp h2 with h3 | h3
    · exact absurd h3 (by decide)
    rcases List.mem_append.mp h3 with h4 | h4
    · exact not_nl_padRight hmn 20 h4
    · exact absurd h4 (by decide)
  rw [splitNL_append _ (by decide), splitNL_append _ hrow2', splitNL_append _ (by decide)]
  rw [show (('│' :: ' ' :: (padRight t.message 20 ++ [' ', '│'])) ++ ['\n']) ++ frame_footer =
    ('│' :: ' ' :: (padRight t.message 20 ++ [' ', '│'])) ++ '\n' :: frame_footer by simp]
  rw [splitNL_append _ hbrow, splitNL_single (by decide)]

def c6w_task : PrintTask :=
  { title := some ("TASK".toList), message := "Hello".toList,
    date := some ("01/02/2024".toList), encode := none, address := none, port := none,
    codepage := none }

/-- Witness for the amended C6 at a concrete titled 5-character message. -/
theorem C6_witness :
    c6w_task.title = some ("TASK".toList) ∧
    AsciiStr ("TASK".toList) ∧ '{' ∉ ("TASK".toList) ∧ '\n' ∉ ("TASK".toList) ∧
    takeBytes (c6w_task.date.getD today0) 5 = some ("01/02".toList) ∧
    AsciiStr ("01/02".toList) ∧ '\n' ∉ ("01/02".toList) ∧
    AsciiStr c6w_task.message ∧ '\n' ∉ c6w_task.message ∧
    1 ≤ c6w_task.message.length ∧ c6w_task.message.length ≤ 20 ∧
    (∃ out, generate_task_string today0 c6w_task = some out ∧
      splitNL out = [frame_header,
        '│' :: ' ' :: ((padRight ("TASK".toList) 14).take 14 ++ ' ' ::
          ("01/02".toList ++ [' ', '│'])),
        frame_separator,
        '│' :: ' ' :: (padRight c6w_task.message 20 ++ [' ', '│']),
        frame_footer]) :=
  ⟨rfl, by decide, by decide, by decide, by decide, by decide, by decide, by decide,
   by decide, by decide, by decide,
   C6_amended today0 c6w_task ("TASK".toList) ("01/02".toList)
     rfl (by decide) (by decide) (by decide) (by decide) (by decide) (by decide)
     (by decide) (by decide) (by decide) (by decide)⟩

def c10_ascii_task : PrintTask :=
  { title := some ("X".toList), message := "ok".toList, date := some ("9/9".toList),
    encode := none, address := none, port := none, codepage := none }

/-- Counterexample to C10 as stated: the renderers are not total on
all-ASCII input — an ASCII date shorter than 5 bytes still aborts the task
renderer (out-of-range slice, not a character-boundary issue). -/
theorem C10_counterexample :
    AsciiStr ("X".toList) ∧ AsciiStr ("ok".toList) ∧ AsciiStr ("9/9".toList) ∧
    generate_task_string today0 c10_ascii_task = none := by
  refine ⟨by decide, by decide, by decide, by decide⟩

def c10_msg24 : PrintTask :=
  { title := none, message := List.replicate 23 'a' ++ ['é'], date := none,
    encode := none, address := none, port := none, codepage := none }

def c10_msg20 : PrintTask :=
  { title := none, message := List.replicate 19 'a' ++ ['é'], date := none,
    encode := none, address := none, port := none, codepage := none }

def c10_title14 : PrintTask :=
  { title := some (List.replicate 13 'a' ++ ['é']), message := "x".toList,
    date := some ("01/02/2024".toList), encode := none, address := none, port := none,
    codepage := none }

def c10_date5 : PrintTask :=
  { title := some ("T".toList), message := "x".toList,
    date := some ("1234é6789".toList), encode := none, address := none, port := none,
    codepage := none }

/-- Claim C10 amended: truncation boundaries are byte offsets — a multi-byte
character straddling byte offset 24 of a message line, 20 of a padded
segment, 14 of the padded title, or 5 of the date string makes the
renderers abort; for all-ASCII input the renderers are total provided any
supplied date is at least 5 bytes long (the note renderer is total for
every all-ASCII message). -/
theorem C10_amended :
    generate_note_string c10_msg24 = none ∧
    generate_note_string c10_msg20 = none ∧
    generate_task_string today0 c10_title14 = none ∧
    generate_task_string today0 c10_date5 = none ∧
    (∀ t : PrintTask, AsciiStr t.message → (generate_note_string t).isSome = true) ∧
    (∀ (today : List Char) (t : PrintTask) (pre : List Char),
      AsciiStr (t.title.getD ("NOTE".toList)) → AsciiStr t.message →
      takeBytes (t.date.getD today) 5 = some pre → AsciiStr pre →
      (generate_task_string today t).isSome = true) := by
  refine ⟨by decide, by decide, by decide, by decide, ?_, ?_⟩
  · intro t hmsg
    exact gns_ascii_total hmsg
  · intro today t pre htA hmsg hpre hpA
    exact gts_ascii_total htA hpre hpA hmsg

def c10w_task : PrintTask :=
  { title := none, message := "abc".toList, date := none, encode := none,
    address := none, port := none, codepage := none }

/-- Witness for the amended C10: the totality part instantiated at a
concrete all-ASCII untitled task. -/
theorem C10_witness :
    AsciiStr c10w_task.message ∧ (generate_note_string c10w_task).isSome = true :=
  ⟨by decide, C10_amended.2.2.2.2.1 c10w_task (by decide)⟩

end TaskPrinter
